import Mathlib

/-
Verification of the connectivity / lottery smart-contract layer of the
toychain-argos repository.

The development shallowly embeds the relevant Python sources:
  * scs/poc.py      -- the `Contract` with `Hello`/`AddPeer` ledgers, the
                       `hello_index` and `peer_index` connectivity strategies,
                       `update_connectivity` and `get_block_reward`;
  * scs/greeter.py and scs/pos.py -- the lottery-ticket `Contract` with the
                       `market_share`, `market_fixed`, `hello_shares`,
                       `hello_fixed` and `hello_fixed_last` strategies,
                       `update_lottery` and `get_block_reward` (the two files
                       define identical strategy bodies; `pos.py` merely names
                       the strategy field `update` instead of `lottery_update`);
  * controllers/main.py -- the peering pass and the IDLE/RANDOM/TRANSACT
                       experiment state machine.

Python dictionaries are embedded as association lists with (by the dict
invariant) pairwise-distinct keys, in insertion order; Python ints are `Int`,
counts are `Nat`, Python floats arising from true division are modelled as
exact rationals (`Rat`).  A returned `none` models an uncaught Python
exception.
-/

set_option linter.unusedVariables false
set_option linter.unnecessarySeqFocus false

/-- Modelled from the spec: `gen_enode` lives in the external toychain helper
library (`toychain.src.utils.helpers`).  The spec states that it derives an
opaque enode identifier deterministically from a robot's integer id and that
the map is a bijection over the robot population, so an enode is modelled as a
wrapper around the id. -/
structure Enode where
  rid : Nat
deriving DecidableEq, Repr

/-- Modelled from the spec: deterministic enode derivation. -/
def gen_enode (i : Nat) : Enode := ⟨i⟩

/-- A `Hello` transaction as submitted by the controller:
`{'function': 'Hello', 'inputs': [neighbor.id]}` with a sender and a
timestamp taken from the custom clock. -/
structure Tx where
  sender : Nat
  neighbor : Nat
  timestamp : Int
deriving DecidableEq, Repr

/-- The fields of a toychain block that the contract layer reads: the block
timestamp and the transaction list `block.data` (the remaining block fields —
height, hashes, difficulty — are never read by the embedded code). -/
structure Block where
  timestamp : Int
  data : List Tx
deriving DecidableEq, Repr

/-! Python `dict` operations on association lists. -/

/-- Dictionary lookup `d[k]` (as an `Option`, `none` when the key is absent). -/
def dGet? {κ β : Type} [DecidableEq κ] : List (κ × β) → κ → Option β
  | [], _ => none
  | (k, v) :: t, k' => if k = k' then some v else dGet? t k'

/-- Dictionary lookup with a default value. -/
def dGetD {κ β : Type} [DecidableEq κ] (d : List (κ × β)) (k : κ) (v₀ : β) : β :=
  (dGet? d k).getD v₀

/-- Dictionary assignment `d[k] = v`: replaces the value in place when the key
is present, appends the pair otherwise (Python dicts keep insertion order). -/
def dSet {κ β : Type} [DecidableEq κ] : List (κ × β) → κ → β → List (κ × β)
  | [], k, v => [(k, v)]
  | (k', v') :: t, k, v => if k' = k then (k, v) :: t else (k', v') :: dSet t k v

/-- The Python `dict` invariant: keys are pairwise distinct. -/
def keysNodup {κ β : Type} (d : List (κ × β)) : Prop :=
  (d.map Prod.fst).Nodup

instance {κ β : Type} [DecidableEq κ] (d : List (κ × β)) : Decidable (keysNodup d) := by
  unfold keysNodup; infer_instance

/-! The lottery-list manipulation shared by the greeter/pos strategies.
The lottery is a Python list of enodes used as a multiset of tickets. -/

/-- Python `lottery.remove(enode)`: drops the first occurrence (the strategies
only call it under a guard ensuring the element is present; on a list without
the element it is the identity here, where Python would raise `ValueError`). -/
def pyRemove : List Enode → Enode → List Enode
  | [], _ => []
  | x :: xs, e => if x = e then xs else x :: pyRemove xs e

/-- The loop `while tickets_owned < tickets_allowed: lottery.append(enode)`,
unrolled over its iteration count `(allowed - owned).toNat`. -/
def addLoop (l : List Enode) (e : Enode) : Nat → List Enode
  | 0 => l
  | n + 1 => addLoop (l ++ [e]) e n

/-- The loop `while tickets_owned > tickets_allowed and tickets_owned > 1:
lottery.remove(enode)`, unrolled over its iteration count
`(owned - max allowed 1).toNat` (the guard `owned > allowed and owned > 1`
holds exactly while `owned > max allowed 1`). -/
def removeLoop (l : List Enode) (e : Enode) : Nat → List Enode
  | 0 => l
  | n + 1 => removeLoop (pyRemove l e) e n

/-- One full-ratchet body for participant enode `e` with target `t`, as in
`market_share`, `hello_shares`, `hello_fixed` and `hello_fixed_last`:
read `tickets_owned = lottery.count(enode)`, append while under target,
then remove while over target and above one ticket. -/
def ratchet (lot : List Enode) (e : Enode) (t : Int) : List Enode :=
  let owned : Int := lot.count e
  let lot₁ := addLoop lot e (t - owned).toNat
  let owned₁ : Int := max owned t
  removeLoop lot₁ e (owned₁ - max t 1).toNat

/-- The resulting ticket count of one full-ratchet body (closed form used in
the theorems): climb to the target, or fall to the target but never below one
ticket once at least one is owned. -/
def ratchetCount (c t : Int) : Int :=
  if c < t then t else if t < c ∧ 1 < c then max t 1 else c

/-- One `market_fixed` body for participant enode `e` with target `t`:
`if tickets_owned + 1 <= tickets_allowed` append a single ticket, then the
removal loop as in the full ratchet. -/
def market_fixed_step (lot : List Enode) (e : Enode) (t : Int) : List Enode :=
  let owned : Int := lot.count e
  let p := if owned + 1 ≤ t then (lot ++ [e], owned + 1) else (lot, owned)
  removeLoop p.1 e (p.2 - max t 1).toNat

/-- The resulting ticket count of one `market_fixed` body (closed form). -/
def mfCount (c t : Int) : Int :=
  if c + 1 ≤ t then c + 1 else if t < c ∧ 1 < c then max t 1 else c

namespace Poc

/-- The state of `scs/poc.py`'s `Contract`: ledger variables, the greeting and
peer-observation ledgers, the connectivity map and the configuration scalars.
(The `private` dict of the source is never read by the embedded methods and is
omitted.) -/
structure Contract where
  n : Int
  balances : List (Nat × Int)
  all_hellos : List (Nat × List (Nat × Int))
  all_peers : List (Nat × List (Nat × Int))
  connectivity : List (Enode × Nat)
  trans_reward : Int
  decay : Int
  connectivity_update : String
deriving DecidableEq, Repr

/-- `Contract.Hello(neighbor)`: `all_hellos.setdefault(neighbor, [])` followed
by `all_hellos[neighbor].append((msg.sender, msg.timestamp))`. -/
def Hello (s : Contract) (sender : Nat) (timestamp : Int) (neighbor : Nat) : Contract :=
  { s with
      all_hellos := dSet s.all_hellos neighbor
        (dGetD s.all_hellos neighbor [] ++ [(sender, timestamp)]) }

/-- `Contract.AddPeer(peer_id)`: `all_peers.setdefault(sender, [])` followed by
`all_peers[sender].append((peer_id, msg.timestamp))`. -/
def AddPeer (s : Contract) (sender : Nat) (timestamp : Int) (peer_id : Nat) : Contract :=
  { s with
      all_peers := dSet s.all_peers sender
        (dGetD s.all_peers sender [] ++ [(peer_id, timestamp)]) }

/-- The count `len([e for e in all_hellos[i] if e[1] > timestamp - decay])`. -/
def countValid (hs : List (Nat × Int)) (cutoff : Int) : Nat :=
  (hs.filter (fun e => cutoff < e.2)).length

/-- `Contract.hello_index(block)`: for every robot `i` in `all_hellos`, set
`connectivity[gen_enode(i)]` to the number of its greetings newer than
`block.timestamp - decay`. -/
def hello_index (s : Contract) (b : Block) : Contract :=
  { s with
      connectivity :=
        s.all_hellos.foldl
          (fun conn p => dSet conn (gen_enode p.1) (countValid p.2 (b.timestamp - s.decay)))
          s.connectivity }

/-- The inner scan of `peer_index`: does `peer_list` contain an observation
`(r, t)` with `t > cutoff`?  (The source `break`s after the first hit.) -/
def hasValidObs (peerList : List (Nat × Int)) (r : Nat) (cutoff : Int) : Bool :=
  peerList.any (fun q => q.1 == r && decide (cutoff < q.2))

/-- The robots other than `r` whose peer-observation list contains an
in-window observation of `r`.  The source collects their ids in a Python set;
as dict keys are pairwise distinct, the set's size is this list's length. -/
def reciprocalObservers (allPeers : List (Nat × List (Nat × Int))) (r : Nat) (cutoff : Int) :
    List (Nat × List (Nat × Int)) :=
  allPeers.filter (fun p => p.1 != r && hasValidObs p.2 r cutoff)

/-- `len(reciprocal_peers)` for robot `r`. -/
def reciprocalCount (allPeers : List (Nat × List (Nat × Int))) (r : Nat) (cutoff : Int) : Nat :=
  (reciprocalObservers allPeers r cutoff).length

/-- `Contract.peer_index(block)`: for every robot `r` in `all_peers`, set
`connectivity[gen_enode(r)]` to the number of distinct other robots whose
peer list contains `(r, t)` with `t > block.timestamp - decay`. -/
def peer_index (s : Contract) (b : Block) : Contract :=
  { s with
      connectivity :=
        s.all_peers.foldl
          (fun conn p =>
            dSet conn (gen_enode p.1) (reciprocalCount s.all_peers p.1 (b.timestamp - s.decay)))
          s.connectivity }

/-- The attribute names defined on `poc.py`'s `Contract` itself (its methods
and the instance attributes its `__init__` sets).  `hasattr` also sees
attributes inherited from the external toychain `StateMixin`; those belong to
the external library and are outside this embedding. -/
def attrNames : List String :=
  ["n", "private", "balances", "all_hellos", "all_peers", "connectivity",
   "trans_reward", "decay", "connectivity_update",
   "Hello", "AddPeer", "get_block_reward", "update_connectivity",
   "hello_index", "peer_index", "none"]

/-- `Contract.update_connectivity(block)`:
if `not hasattr(self, self.connectivity_update)` the call is a logged no-op;
otherwise `getattr(self, self.connectivity_update)(block)` is invoked.
Dispatching to `hello_index` or `peer_index` runs the strategy.  Dispatching
to any other attribute fails (modelled as `none`): the data attributes are not
callable, `none()` takes no block argument (both `TypeError`), and
`get_block_reward`/`update_connectivity` re-enter the update without ever
returning, while the transaction handlers `Hello`/`AddPeer` require the
pending-message context that block processing does not provide. -/
def update_connectivity (s : Contract) (b : Block) : Option Contract :=
  if s.connectivity_update = "hello_index" then some (hello_index s b)
  else if s.connectivity_update = "peer_index" then some (peer_index s b)
  else if attrNames.contains s.connectivity_update then none
  else some s

/-- `Contract.get_block_reward(block)`: run `update_connectivity(block)`, then
return `len(block.data) * trans_reward`. -/
def get_block_reward (s : Contract) (b : Block) : Option (Contract × Int) :=
  (update_connectivity s b).map (fun s' => (s', (b.data.length : Int) * s.trans_reward))

end Poc

namespace Greeter

/-- The state of `scs/greeter.py`'s (and `scs/pos.py`'s) `Contract`: ledger
variables, the greeting ledger, the lottery ticket list and the configured
strategy name (`lottery_update` in greeter.py, `update` in pos.py; the
`private` dict is never read by the embedded methods and is omitted). -/
structure Contract where
  n : Int
  balances : List (Nat × Int)
  all_hellos : List (Nat × List (Nat × Int))
  lottery : List Enode
  trans_reward : Int
  lottery_update : String
deriving DecidableEq, Repr

/-- `Contract.Hello(neighbor)` exactly as in `poc.py`. -/
def Hello (s : Contract) (sender : Nat) (timestamp : Int) (neighbor : Nat) : Contract :=
  { s with
      all_hellos := dSet s.all_hellos neighbor
        (dGetD s.all_hellos neighbor [] ++ [(sender, timestamp)]) }

/-- `Contract.market_share()`: average market value per participant gates the
update; each participant is full-ratcheted to `balances[i] // market_share`.
`none` models the `ZeroDivisionError` raised when `balances` is empty, and the
one raised by `balances[i] // 0.0` when the market value is zero yet the gate
`market_share < trans_reward` did not fire. -/
def market_share (s : Contract) : Option Contract :=
  let market_value : Int := (s.balances.map Prod.snd).sum
  let participants : Nat := s.balances.length
  if participants = 0 then none
  else
    let ms : ℚ := (market_value : ℚ) / (participants : ℚ)
    if ms < (s.trans_reward : ℚ) then some s
    else if ms = 0 then none
    else some { s with
      lottery :=
        s.balances.foldl
          (fun lot p => ratchet lot (gen_enode p.1) (Int.floor ((p.2 : ℚ) / ms)))
          s.lottery }

/-- `Contract.market_fixed()`: target `balances[i] // 10`; appends at most a
single ticket per participant, removal ratchets fully. -/
def market_fixed (s : Contract) : Contract :=
  { s with
      lottery :=
        s.balances.foldl
          (fun lot p => market_fixed_step lot (gen_enode p.1) (Int.fdiv p.2 10))
          s.lottery }

/-- `Contract.hello_shares()`: like `market_share` but keyed on greeting
counts, gated by `market_share < 1` (so the zero-market case never reaches the
per-participant division).  `none` models the `ZeroDivisionError` on an empty
`all_hellos`. -/
def hello_shares (s : Contract) : Option Contract :=
  let market_value : Int := (s.all_hellos.map (fun p => (p.2.length : Int))).sum
  let participants : Nat := s.all_hellos.length
  if participants = 0 then none
  else
    let ms : ℚ := (market_value : ℚ) / (participants : ℚ)
    if ms < 1 then some s
    else some { s with
      lottery :=
        s.all_hellos.foldl
          (fun lot p => ratchet lot (gen_enode p.1) (Int.floor ((p.2.length : ℚ) / ms)))
          s.lottery }

/-- `Contract.hello_fixed()`: full ratchet to target
`len(all_hellos[i]) // 10` (unlike `market_fixed`, the climbing direction is a
`while` loop). -/
def hello_fixed (s : Contract) : Contract :=
  { s with
      lottery :=
        s.all_hellos.foldl
          (fun lot p => ratchet lot (gen_enode p.1) ((p.2.length / 10 : Nat) : Int))
          s.lottery }

/-- `Contract.hello_fixed_last(block)`: full ratchet to target
`len(valid_hellos) // 2`, where valid greetings are newer than
`block.timestamp - 200` (the decay window is the literal 200 of the source,
independent of any configured decay). -/
def hello_fixed_last (s : Contract) (b : Block) : Contract :=
  { s with
      lottery :=
        s.all_hellos.foldl
          (fun lot p =>
            ratchet lot (gen_enode p.1)
              (((p.2.filter (fun e => b.timestamp - 200 < e.2)).length / 2 : Nat) : Int))
          s.lottery }

/-- The attribute names defined on `greeter.py`'s `Contract` itself (see
`Poc.attrNames` about attributes of the external `StateMixin`).  For `pos.py`
read `update` for `lottery_update` (and it additionally sets `decay`). -/
def attrNames : List String :=
  ["n", "private", "balances", "all_hellos", "lottery", "trans_reward",
   "lottery_update", "Hello", "get_block_reward", "update_lottery",
   "market_share", "market_fixed", "hello_shares", "hello_fixed",
   "hello_fixed_last", "none"]

/-- `Contract.update_lottery(block)`:
`if not hasattr(self, self.lottery_update)` the call is a logged no-op.
Otherwise the `allowed_methods` table is consulted and the entry is called as
`func(block)` — but `market_share`, `market_fixed`, `hello_shares` and
`hello_fixed` take no block parameter, so those four dispatches raise
`TypeError` (modelled as `none`); only `hello_fixed_last(block)` runs.  A name
outside the table falls back to `getattr(self, self.lottery_update)()` with no
arguments: `none()` runs as a true no-op, every other attribute raises
`TypeError` (data attributes are not callable, the remaining methods require
arguments). -/
def update_lottery (s : Contract) (b : Block) : Option Contract :=
  if ¬ attrNames.contains s.lottery_update then some s
  else if s.lottery_update = "market_share" ∨ s.lottery_update = "market_fixed"
       ∨ s.lottery_update = "hello_shares" ∨ s.lottery_update = "hello_fixed" then none
  else if s.lottery_update = "hello_fixed_last" then some (hello_fixed_last s b)
  else if s.lottery_update = "none" then some s
  else none

/-- `Contract.get_block_reward(block)`: run `update_lottery(block)`, then
return `len(block.data) * trans_reward`. -/
def get_block_reward (s : Contract) (b : Block) : Option (Contract × Int) :=
  (update_lottery s b).map (fun s' => (s', (b.data.length : Int) * s.trans_reward))

end Greeter

/-! The peering pass of `controlstep.peering` in controllers/main.py. -/

/-- A radio-range neighbor as seen through the range-and-bearing board: its
robot id, its advertised chain total difficulty (`peer.getData(indices=[1,2])`)
and its advertised mempool hash (`peer.data[3]`). -/
structure Neighbor where
  id : Nat
  tdiff : Int
  mhash : Int
deriving DecidableEq, Repr

/-- The local node's view used by the peering pass: its own total difficulty,
its own mempool hash, and its current peer set `set(w3.peers)`. -/
structure NodeView where
  tdiff : Int
  mhash : Int
  peers : Finset Enode
deriving DecidableEq

/-- The eligible enode set
`{gen_enode(peer.id) for peer in erb.peers if peer.tdiff > local.tdiff or peer.mhash != local.mhash}`. -/
def eligible (neighbors : List Neighbor) (nv : NodeView) : Finset Enode :=
  ((neighbors.filter (fun nb => decide (nv.tdiff < nb.tdiff) || nb.mhash != nv.mhash)).map
    (fun nb => gen_enode nb.id)).toFinset

/-- The outcome of one peering pass: the enodes passed to `add_peer`, the
enodes passed to `remove_peer`, and the resulting peer set. -/
structure PeeringPass where
  toAdd : Finset Enode
  toRemove : Finset Enode
  newPeers : Finset Enode
deriving DecidableEq

/-- One peering pass: `to_add = eligible - peers` is added one by one through
the external `w3.add_peer`, `to_remove = peers - eligible` removed through
`w3.remove_peer`.  The `newPeers` field is modelled from the spec:
`add_peer`/`remove_peer` live in the external toychain library, and the spec's
peer-set contract (the peer set is mutated only by this diff step) makes the
resulting set `(peers ∪ to_add) \ to_remove`. -/
def peering (neighbors : List Neighbor) (nv : NodeView) : PeeringPass :=
  let elig := eligible neighbors nv
  { toAdd := elig \ nv.peers
    toRemove := nv.peers \ elig
    newPeers := (nv.peers ∪ (elig \ nv.peers)) \ (nv.peers \ elig) }

/-! The experiment state machine of `controlstep` in controllers/main.py. -/

/-- The `States` enum (IDLE = 1, TRANSACT = 9, RANDOM = 10). -/
inductive MState where
  | IDLE
  | TRANSACT
  | RANDOM
deriving DecidableEq, Repr

/-- The controller state that the state-machine step reads and writes: the
FSM's current state, the `pass_along` payload of the last transition
(`FiniteStateMachine.setState` stores it, defaulting to `None`), and the
outstanding greeting transaction `txs['hi']`. -/
structure FsmContext where
  currState : MState
  passAlong : Option Nat
  txHi : Option Tx
deriving DecidableEq, Repr

/-- The state-machine portion of `controlstep` (the IDLE / RANDOM / TRANSACT
blocks).  Inputs: the radio neighbor ids `erb.peers`, a selection function
standing for `random.choice` (any function; the theorems constrain it to pick
from the list), the receipt oracle `w3.get_transaction_receipt`, the local
robot id `me.id` and the clock value `w3.custom_timer.time()`.  Returns the
new controller state together with the list of transactions submitted through
`w3.send_transaction` during the step. -/
def fsmControlStep (m : FsmContext) (me : Nat) (neighbors : List Nat)
    (pick : List Nat → Nat) (receipt : Tx → Bool) (now : Int) :
    FsmContext × List Tx :=
  -- State::IDLE — unconditional transition to RANDOM (a plain `if`, so the
  -- RANDOM block below runs in the same step)
  let m₁ := if m.currState = MState.IDLE then
      { m with currState := MState.RANDOM, passAlong := none }
    else m
  -- State::RANDOM — when a neighbor is present, transition to TRANSACT
  -- carrying the chosen neighbor as `pass_along`
  if m₁.currState = MState.RANDOM then
    if neighbors = [] then (m₁, [])
    else ({ m₁ with currState := MState.TRANSACT, passAlong := some (pick neighbors) }, [])
  else if m₁.currState = MState.TRANSACT then
    -- `if not txs['hi']`: submit one `Hello` greeting the carried neighbor
    let step₂ : FsmContext × List Tx :=
      match m₁.txHi with
      | none =>
          let tx : Tx := { sender := me, neighbor := m₁.passAlong.getD 0, timestamp := now }
          ({ m₁ with txHi := some tx }, [tx])
      | some _ => (m₁, [])
    -- `if w3.get_transaction_receipt(txs['hi'].id)`: confirmed, back to RANDOM
    match h : step₂.1.txHi with
    | some tx =>
        if receipt tx then
          ({ step₂.1 with currState := MState.RANDOM, passAlong := none, txHi := none }, step₂.2)
        else (step₂.1, step₂.2)
    | none => (step₂.1, step₂.2)
  else (m₁, [])

/-! Concrete states used by the counterexamples and witnesses below. -/

/-- A poc contract holding two greetings of robot 1 by robot 2 (t = 10, 40),
with decay 30 (the spec's section-8 concrete check). -/
def exC1 : Poc.Contract :=
  { n := 0, balances := [], all_hellos := [(1, [(2, 10), (2, 40)])], all_peers := []
    connectivity := [(gen_enode 1, 0), (gen_enode 2, 0), (gen_enode 3, 0)]
    trans_reward := 1, decay := 30, connectivity_update := "hello_index" }

/-- A block at t = 55 (decay cutoff 25, so only the t = 40 greeting counts). -/
def exC1block : Block := { timestamp := 55, data := [] }

/-- A poc contract where only robot 1 has recorded robot 2 as a peer (inside
the decay window) and robot 2 has recorded nothing. -/
def exC2 : Poc.Contract :=
  { n := 0, balances := [], all_hellos := [], all_peers := [(1, [(2, 10)])]
    connectivity := [(gen_enode 1, 0), (gen_enode 2, 0)]
    trans_reward := 1, decay := 50, connectivity_update := "peer_index" }

/-- A block at t = 20, so the cutoff is -30 and the (2, 10) observation is in
the window. -/
def exC2block : Block := { timestamp := 20, data := [] }

/-- Like `exC2` but robot 2 also appears as a key of `all_peers` (it sent at
least one `AddPeer`, here recorded with an empty list for minimality). -/
def exC2w : Poc.Contract :=
  { exC2 with all_peers := [(1, [(2, 10)]), (2, [(1, 10)])] }

/-- A greeter contract where robot 1 owns 20 recorded greetings and no
tickets: the `hello_fixed` target is 2, two tickets below the current count. -/
def exC3 : Greeter.Contract :=
  { n := 0, balances := [], all_hellos := [(1, List.replicate 20 (2, (0 : Int)))]
    lottery := [], trans_reward := 1, lottery_update := "hello_fixed" }

/-- A greeter contract exercising both `market_fixed` directions and the
`hello_fixed` climb: robot 1 is five tickets under target, robot 2 owns three
tickets with target 1, robot 3 has 20 greetings and no tickets. -/
def exC3w : Greeter.Contract :=
  { n := 0, balances := [(1, 50), (2, 10)]
    all_hellos := [(3, List.replicate 20 (1, (0 : Int)))]
    lottery := [gen_enode 2, gen_enode 2, gen_enode 2]
    trans_reward := 1, lottery_update := "market_fixed" }

/-- A greeter contract five tickets under the `market_fixed` target. -/
def exC4 : Greeter.Contract :=
  { n := 0, balances := [(1, 50)], all_hellos := [], lottery := []
    trans_reward := 1, lottery_update := "market_fixed" }

/-- A greeter contract on which every full-ratchet strategy does real work:
balance target 1 ticket, greeting targets 2 (`hello_fixed`) and 1
(`hello_shares`). -/
def exC4w : Greeter.Contract :=
  { n := 0, balances := [(1, 10)], all_hellos := [(1, List.replicate 20 (2, (0 : Int)))]
    lottery := [], trans_reward := 1, lottery_update := "market_share" }

/-- The state `exC4w` reaches after one `market_share` call (one ticket for
robot 1). -/
def exC4w1 : Greeter.Contract := { exC4w with lottery := [gen_enode 1] }

/-- The state `exC4w` reaches after one `hello_shares` call. -/
def exC4w2 : Greeter.Contract := { exC4w with lottery := [gen_enode 1] }

/-- A block used wherever only a timestamp is needed. -/
def exBlock0 : Block := { timestamp := 100, data := [] }

/-- A greeter contract where robot 2 owns one ticket and every strategy's
target for it is 0 — the floor must keep the ticket. -/
def exC5 : Greeter.Contract :=
  { n := 0, balances := [(2, 3)], all_hellos := [(2, [(1, 99)])]
    lottery := [gen_enode 2], trans_reward := 1, lottery_update := "market_fixed" }

/-- A greeter contract configured with the whitelisted `market_share`
strategy: `update_lottery` calls `self.market_share(block)` although
`market_share` takes no block parameter. -/
def exC6g : Greeter.Contract :=
  { n := 0, balances := [(1, 50)], all_hellos := [], lottery := []
    trans_reward := 1, lottery_update := "market_share" }

/-- A poc contract configured with the documented no-op placeholder strategy
`none`: `update_connectivity` calls `self.none(block)` although `none` takes
no block parameter. -/
def exC6p : Poc.Contract :=
  { n := 0, balances := [], all_hellos := [], all_peers := []
    connectivity := [], trans_reward := 7, decay := 10, connectivity_update := "none" }

/-- A poc contract configured with the supported `hello_index` strategy. -/
def exC6hi : Poc.Contract :=
  { n := 0, balances := [], all_hellos := [(1, [(2, 95)])], all_peers := []
    connectivity := [(gen_enode 1, 0)], trans_reward := 7, decay := 10
    connectivity_update := "hello_index" }

/-- A block with two transactions, for the reward formula. -/
def exBlock2 : Block :=
  { timestamp := 100
    data := [{ sender := 2, neighbor := 1, timestamp := 95 },
             { sender := 1, neighbor := 2, timestamp := 96 }] }

/-- A poc contract configured with the placeholder strategy name `none`
(an attribute of the contract but not a connectivity strategy). -/
def exC7 : Poc.Contract :=
  { n := 0, balances := [(1, 4)], all_hellos := [(1, [(2, 3)])], all_peers := []
    connectivity := [(gen_enode 1, 0)], trans_reward := 2, decay := 5
    connectivity_update := "none" }

/-- A poc contract configured with a strategy string that names no attribute
at all. -/
def exC7p : Poc.Contract :=
  { exC7 with connectivity_update := "mystery_strategy" }

/-- A greeter contract configured with a strategy string that names no
attribute at all. -/
def exC7g : Greeter.Contract :=
  { n := 0, balances := [(1, 4)], all_hellos := [], lottery := [gen_enode 1]
    trans_reward := 2, lottery_update := "mystery_strategy" }

/-- A greeter contract configured with the fallback-dispatched no-op `none`. -/
def exC7n : Greeter.Contract := { exC7g with lottery_update := "none" }

/-- One radio neighbor, id 2, advertising a harder chain than the local node. -/
def exC8nbs : List Neighbor := [{ id := 2, tdiff := 5, mhash := 7 }]

/-- The local node's view: lower difficulty, same mempool hash, no peers. -/
def exC8nv : NodeView := { tdiff := 0, mhash := 7, peers := ∅ }

/-- The local view after the first peering pass (peer table updated by the
pass, same chain state). -/
def exC8nv2 : NodeView := { tdiff := 0, mhash := 7, peers := (peering exC8nbs exC8nv).newPeers }

/-- The controller in the RANDOM state with no outstanding greeting. -/
def exC9r : FsmContext := { currState := MState.RANDOM, passAlong := none, txHi := none }

/-- The submitted greeting of robot 1 to robot 5. -/
def exC9tx : Tx := { sender := 1, neighbor := 5, timestamp := 3 }

/-- The controller in the TRANSACT state with the greeting outstanding. -/
def exC9t : FsmContext := { currState := MState.TRANSACT, passAlong := some 5, txHi := some exC9tx }

/-- The `random.choice` stand-in used by the witness: pick the first
neighbor. -/
def pickHead (l : List Nat) : Nat := l.headD 0

/-- A genesis-fresh pos contract (empty ledgers, one initial ticket per robot
for 3 robots) configured with `market_share`. -/
def exC10 : Greeter.Contract :=
  { n := 0, balances := [], all_hellos := []
    lottery := [gen_enode 1, gen_enode 2, gen_enode 3]
    trans_reward := 1, lottery_update := "market_share" }

/-- A greeter contract with an empty balance map but a nonempty greeting
ledger, and vice versa, packed into two states for the witness. -/
def exC10b : Greeter.Contract :=
  { n := 0, balances := [(1, 5)], all_hellos := []
    lottery := [], trans_reward := 1, lottery_update := "hello_shares" }

/-! Helper lemmas: enode injectivity and association-list operations. -/

theorem gen_enode_inj : Function.Injective gen_enode :=
  fun _ _ h => congrArg Enode.rid h

theorem dGet?_dSet_self {κ β : Type} [DecidableEq κ] (d : List (κ × β)) (k : κ) (v : β) :
    dGet? (dSet d k v) k = some v := by
  induction d with
  | nil => simp [dSet, dGet?]
  | cons p t ih =>
    obtain ⟨k', v'⟩ := p
    by_cases h : k' = k
    · simp [dSet, h, dGet?]
    · simp [dSet, h, dGet?, ih]

theorem dGet?_dSet_ne {κ β : Type} [DecidableEq κ] (d : List (κ × β)) (k k' : κ) (v : β)
    (h : k' ≠ k) : dGet? (dSet d k v) k' = dGet? d k' := by
  induction d with
  | nil =>
    simp only [dSet, dGet?]
    rw [if_neg (fun hh => h hh.symm)]
  | cons p t ih =>
    obtain ⟨a, b⟩ := p
    by_cases ha : a = k
    · subst ha
      simp only [dSet, if_pos rfl, dGet?]
      rw [if_neg (fun hh : a = k' => h hh.symm), if_neg (fun hh : a = k' => h hh.symm)]
    · simp only [dSet, if_neg ha, dGet?]
      by_cases hb : a = k'
      · rw [if_pos hb, if_pos hb]
      · rw [if_neg hb, if_neg hb]
        exact ih

theorem dGet?_foldl_dSet_not_mem {α ν κ : Type} [DecidableEq κ]
    (key : α → κ) (val : α → ν) (items : List α) (conn : List (κ × ν)) (e : κ)
    (he : e ∉ items.map key) :
    dGet? (items.foldl (fun c q => dSet c (key q) (val q)) conn) e = dGet? conn e := by
  induction items generalizing conn with
  | nil => rfl
  | cons q t ih =>
    simp only [List.map_cons, List.mem_cons, not_or] at he
    rw [List.foldl_cons, ih _ he.2, dGet?_dSet_ne _ _ _ _ he.1]

theorem dGet?_foldl_dSet_mem {α ν κ : Type} [DecidableEq κ]
    (key : α → κ) (val : α → ν) (items : List α) (conn : List (κ × ν)) (p : α)
    (hnd : (items.map key).Nodup) (hp : p ∈ items) :
    dGet? (items.foldl (fun c q => dSet c (key q) (val q)) conn) (key p) = some (val p) := by
  induction items generalizing conn with
  | nil => cases hp
  | cons q t ih =>
    rw [List.map_cons, List.nodup_cons] at hnd
    rw [List.foldl_cons]
    rcases List.mem_cons.mp hp with h | h
    · subst h
      rw [dGet?_foldl_dSet_not_mem key val t _ (key p) hnd.1, dGet?_dSet_self]
    · exact ih _ hnd.2 h

theorem filter_dSet_of_key_false {κ β : Type} [DecidableEq κ] (d : List (κ × β)) (k : κ) (v : β)
    (pred : κ × β → Bool) (hpred : ∀ w, pred (k, w) = false) :
    (dSet d k v).filter pred = d.filter pred := by
  induction d with
  | nil => simp [dSet, List.filter_cons, hpred]
  | cons p t ih =>
    obtain ⟨a, b⟩ := p
    by_cases h : a = k
    · subst h
      have hd : dSet ((a, b) :: t) a v = (a, v) :: t := by simp [dSet]
      rw [hd, List.filter_cons, List.filter_cons, hpred b, hpred v]
      simp
    · simp only [dSet, if_neg h]
      rw [List.filter_cons, List.filter_cons, ih]

/-- The mapped enode keys of a dict with distinct keys are distinct. -/
theorem enodeKeysNodup {β : Type} (d : List (Nat × β)) (hnd : keysNodup d) :
    (d.map (fun p => gen_enode p.1)).Nodup := by
  have h : d.map (fun p => gen_enode p.1) = (d.map Prod.fst).map gen_enode := by
    simp [List.map_map]
  rw [h]
  exact hnd.map (fun a b hab => gen_enode_inj hab)

/-- C1: for every contract state whose greeting ledger satisfies the dict
invariant and every block, `hello_index` sets `connectivity[gen_enode i]`, for
each robot `i` with at least one recorded greeting, to exactly the number of
entries `(sender, t)` of `all_hellos[i]` with `t > block.timestamp - decay`
(so greetings at or before the cutoff are never counted), while the greeting
ledger itself is left untouched. -/
theorem hello_index_counts_decay_window (s : Poc.Contract) (b : Block)
    (hnd : keysNodup s.all_hellos) (i : Nat) (hs : List (Nat × Int))
    (hmem : (i, hs) ∈ s.all_hellos) (hne : hs ≠ []) :
    dGet? ((Poc.hello_index s b).connectivity) (gen_enode i)
        = some (Poc.countValid hs (b.timestamp - s.decay))
      ∧ (Poc.hello_index s b).all_hellos = s.all_hellos := by
  refine ⟨?_, rfl⟩
  exact dGet?_foldl_dSet_mem (fun p => gen_enode p.1)
    (fun p => Poc.countValid p.2 (b.timestamp - s.decay))
    s.all_hellos s.connectivity (i, hs) (enodeKeysNodup _ hnd) hmem

theorem hello_index_counts_decay_window_witness :
    keysNodup exC1.all_hellos
    ∧ dGet? ((Poc.hello_index exC1 exC1block).connectivity) (gen_enode 1) = some 1 := by
  refine ⟨by decide, ?_⟩
  have h := hello_index_counts_decay_window exC1 exC1block (by decide) 1
    [(2, 10), (2, 40)] (by decide) (by decide)
  simpa using h.1

/-- C2 counterexample: in `exC2` only robot 1 has recorded robot 2 as a peer
(in the decay window) and robot 2 has recorded nothing; the claim predicts
that `peer_index` increases `connectivity[gen_enode 2]` by one, but the code
never touches robots that are not keys of `all_peers`, so the value stays 0. -/
theorem peer_index_unrecorded_robot_counterexample :
    ¬ (dGetD ((Poc.peer_index exC2 exC2block).connectivity) (gen_enode 2) 0
        = dGetD exC2.connectivity (gen_enode 2) 0 + 1) := by decide

/-- C2 (amended): `peer_index` counts incoming observations, but only for
robots that themselves appear as keys of `all_peers`: (i) a robot `B` with no
recorded observations keeps its old connectivity value untouched; (ii) a
recorded robot `B` gets exactly the number of distinct other recorded robots
with an in-window observation of `B`; (iii) when robot `A` is the only such
observer, that number is 1, attributable to `A`; (iv) `A`'s own connectivity
is computed without reference to `A`'s own observation list (where its record
of `B` lives), so that observation alone never changes `A`'s score. -/
theorem peer_index_incoming_observations (s : Poc.Contract) (b : Block) (A B : Nat)
    (hnd : keysNodup s.all_peers) :
    (B ∉ s.all_peers.map Prod.fst →
        dGet? ((Poc.peer_index s b).connectivity) (gen_enode B)
          = dGet? s.connectivity (gen_enode B))
    ∧ (B ∈ s.all_peers.map Prod.fst →
        dGet? ((Poc.peer_index s b).connectivity) (gen_enode B)
          = some (Poc.reciprocalCount s.all_peers B (b.timestamp - s.decay)))
    ∧ ((Poc.reciprocalObservers s.all_peers B (b.timestamp - s.decay)).map Prod.fst = [A] →
        Poc.reciprocalCount s.all_peers B (b.timestamp - s.decay) = 1)
    ∧ (∀ l', Poc.reciprocalCount (dSet s.all_peers A l') A (b.timestamp - s.decay)
          = Poc.reciprocalCount s.all_peers A (b.timestamp - s.decay)) := by
  refine ⟨?_, ?_, ?_, ?_⟩
  · intro hB
    have hB' : gen_enode B ∉
        s.all_peers.map (fun p : Nat × List (Nat × Int) => gen_enode p.1) := by
      intro hmem
      rcases List.mem_map.mp hmem with ⟨p, hp, he⟩
      exact hB (List.mem_map.mpr ⟨p, hp, gen_enode_inj he⟩)
    exact dGet?_foldl_dSet_not_mem (fun p : Nat × List (Nat × Int) => gen_enode p.1)
      (fun p : Nat × List (Nat × Int) =>
        Poc.reciprocalCount s.all_peers p.1 (b.timestamp - s.decay))
      s.all_peers s.connectivity (gen_enode B) hB'
  · intro hB
    rcases List.mem_map.mp hB with ⟨p, hp, hfst⟩
    have h := dGet?_foldl_dSet_mem (fun p : Nat × List (Nat × Int) => gen_enode p.1)
      (fun p : Nat × List (Nat × Int) =>
        Poc.reciprocalCount s.all_peers p.1 (b.timestamp - s.decay))
      s.all_peers s.connectivity p (enodeKeysNodup _ hnd) hp
    rw [← hfst]
    exact h
  · intro h
    have := congrArg List.length h
    simpa [Poc.reciprocalCount] using this
  · intro l'
    unfold Poc.reciprocalCount Poc.reciprocalObservers
    rw [filter_dSet_of_key_false]
    intro w
    simp

theorem peer_index_incoming_observations_witness :
    keysNodup exC2w.all_peers
    ∧ dGet? ((Poc.peer_index exC2w exC2block).connectivity) (gen_enode 2)
        = some (Poc.reciprocalCount exC2w.all_peers 2 (exC2block.timestamp - exC2w.decay))
    ∧ Poc.reciprocalCount exC2w.all_peers 2 (exC2block.timestamp - exC2w.decay) = 1 :=
  ⟨by decide,
   (peer_index_incoming_observations exC2w exC2block 1 2 (by decide)).2.1 (by decide),
   (peer_index_incoming_observations exC2w exC2block 1 2 (by decide)).2.2.1 (by decide)⟩

/-! Helper lemmas: ticket counts under the lottery-list loops. -/

theorem count_pyRemove_self (l : List Enode) (e : Enode) :
    (pyRemove l e).count e = l.count e - 1 := by
  induction l with
  | nil => rfl
  | cons x xs ih =>
    by_cases h : x = e
    · subst h
      simp [pyRemove, List.count_cons_self]
    · rw [pyRemove, if_neg h, List.count_cons_of_ne (fun hh => h hh.symm),
        List.count_cons_of_ne (fun hh => h hh.symm), ih]

theorem count_pyRemove_ne (l : List Enode) (e e' : Enode) (h : e' ≠ e) :
    (pyRemove l e).count e' = l.count e' := by
  induction l with
  | nil => rfl
  | cons x xs ih =>
    by_cases hx : x = e
    · subst hx
      rw [pyRemove, if_pos rfl, List.count_cons_of_ne h]
    · rw [pyRemove, if_neg hx, List.count_cons, List.count_cons, ih]

theorem count_removeLoop_self (e : Enode) (n : Nat) :
    ∀ l : List Enode, (removeLoop l e n).count e = l.count e - n := by
  induction n with
  | zero => intro l; rfl
  | succ n ih =>
    intro l
    rw [removeLoop, ih, count_pyRemove_self]
    omega

theorem count_removeLoop_ne (e e' : Enode) (h : e' ≠ e) (n : Nat) :
    ∀ l : List Enode, (removeLoop l e n).count e' = l.count e' := by
  induction n with
  | zero => intro l; rfl
  | succ n ih =>
    intro l
    rw [removeLoop, ih, count_pyRemove_ne _ _ _ h]

theorem addLoop_eq_append (e : Enode) (n : Nat) :
    ∀ l : List Enode, addLoop l e n = l ++ List.replicate n e := by
  induction n with
  | zero => intro l; simp [addLoop]
  | succ n ih =>
    intro l
    rw [addLoop, ih, List.append_assoc, List.replicate_succ]
    rfl

theorem count_addLoop_self (l : List Enode) (e : Enode) (n : Nat) :
    (addLoop l e n).count e = l.count e + n := by
  rw [addLoop_eq_append, List.count_append, List.count_replicate]
  simp

theorem count_addLoop_ne (l : List Enode) (e e' : Enode) (h : e' ≠ e) (n : Nat) :
    (addLoop l e n).count e' = l.count e' := by
  have hb : (e == e') = false := beq_eq_false_iff_ne.mpr (Ne.symm h)
  rw [addLoop_eq_append, List.count_append, List.count_replicate, hb]
  simp

theorem count_ratchet_self (lot : List Enode) (e : Enode) (t : Int) :
    ((ratchet lot e t).count e : Int) = ratchetCount (lot.count e) t := by
  simp only [ratchet]
  rw [count_removeLoop_self, count_addLoop_self, ratchetCount]
  split_ifs <;> omega

theorem count_ratchet_ne (lot : List Enode) (e e' : Enode) (t : Int) (h : e' ≠ e) :
    (ratchet lot e t).count e' = lot.count e' := by
  simp only [ratchet]
  rw [count_removeLoop_ne _ _ h, count_addLoop_ne _ _ _ h]

theorem count_market_fixed_step_self (lot : List Enode) (e : Enode) (t : Int) :
    ((market_fixed_step lot e t).count e : Int) = mfCount (lot.count e) t := by
  simp only [market_fixed_step, mfCount]
  by_cases h : (lot.count e : Int) + 1 ≤ t
  · rw [if_pos h, if_pos h]
    dsimp only
    rw [count_removeLoop_self, List.count_append]
    have h1 : List.count e [e] = 1 := by simp
    rw [h1]
    omega
  · rw [if_neg h, if_neg h]
    dsimp only
    rw [count_removeLoop_self]
    split_ifs <;> omega

theorem count_market_fixed_step_ne (lot : List Enode) (e e' : Enode) (t : Int) (h : e' ≠ e) :
    (market_fixed_step lot e t).count e' = lot.count e' := by
  simp only [market_fixed_step]
  by_cases hc : (lot.count e : Int) + 1 ≤ t
  · rw [if_pos hc]
    dsimp only
    rw [count_removeLoop_ne _ _ h, List.count_append]
    have h1 : List.count e' [e] = 0 := by simp [h]
    rw [h1]
    omega
  · rw [if_neg hc]
    dsimp only
    rw [count_removeLoop_ne _ _ h]

/-! Helper lemmas: ticket counts under a whole per-participant pass. -/

theorem count_foldStep_not_mem {α : Type} (step : List Enode → Enode → Int → List Enode)
    (hother : ∀ lot e e' t, e' ≠ e → (step lot e t).count e' = lot.count e')
    (key : α → Enode) (tgt : α → Int) (items : List α) (lot : List Enode) (e : Enode)
    (he : e ∉ items.map key) :
    (items.foldl (fun l q => step l (key q) (tgt q)) lot).count e = lot.count e := by
  induction items generalizing lot with
  | nil => rfl
  | cons q t ih =>
    simp only [List.map_cons, List.mem_cons, not_or] at he
    rw [List.foldl_cons, ih _ he.2, hother _ _ _ _ he.1]

theorem count_foldStep_mem {α : Type} (step : List Enode → Enode → Int → List Enode)
    (cnt : Int → Int → Int)
    (hself : ∀ lot e t, ((step lot e t).count e : Int) = cnt (lot.count e) t)
    (hother : ∀ lot e e' t, e' ≠ e → (step lot e t).count e' = lot.count e')
    (key : α → Enode) (tgt : α → Int) (items : List α) (lot : List Enode) (p : α)
    (hnd : (items.map key).Nodup) (hp : p ∈ items) :
    ((items.foldl (fun l q => step l (key q) (tgt q)) lot).count (key p) : Int)
      = cnt (lot.count (key p)) (tgt p) := by
  induction items generalizing lot with
  | nil => cases hp
  | cons q t ih =>
    rw [List.map_cons, List.nodup_cons] at hnd
    rw [List.foldl_cons]
    rcases List.mem_cons.mp hp with h | h
    · subst h
      rw [count_foldStep_not_mem step hother key tgt t _ (key p) hnd.1, hself]
    · have hne : key p ≠ key q := by
        intro hh
        exact hnd.1 (hh ▸ List.mem_map.mpr ⟨p, h, rfl⟩)
      rw [ih _ hnd.2 h, hother _ _ _ _ hne]

/-- A ticket count is preserved by one pass of any step satisfying the two
count laws whenever the closed form never drops a positive count to zero. -/
theorem count_foldStep_pos {α : Type} (step : List Enode → Enode → Int → List Enode)
    (hpos : ∀ lot e e' t, 1 ≤ lot.count e → 1 ≤ (step lot e' t).count e)
    (key : α → Enode) (tgt : α → Int) (items : List α) (lot : List Enode) (e : Enode)
    (he : 1 ≤ lot.count e) :
    1 ≤ (items.foldl (fun l q => step l (key q) (tgt q)) lot).count e := by
  induction items generalizing lot with
  | nil => exact he
  | cons q t ih =>
    rw [List.foldl_cons]
    exact ih _ (hpos _ _ _ _ he)

theorem ratchet_count_pos (lot : List Enode) (e e' : Enode) (t : Int)
    (he : 1 ≤ lot.count e) : 1 ≤ (ratchet lot e' t).count e := by
  by_cases h : e = e'
  · subst h
    have := count_ratchet_self lot e t
    rw [ratchetCount] at this
    split_ifs at this <;> omega
  · rw [count_ratchet_ne _ _ _ _ h]
    exact he

theorem market_fixed_step_count_pos (lot : List Enode) (e e' : Enode) (t : Int)
    (he : 1 ≤ lot.count e) : 1 ≤ (market_fixed_step lot e' t).count e := by
  by_cases h : e = e'
  · subst h
    have := count_market_fixed_step_self lot e t
    rw [mfCount] at this
    split_ifs at this <;> omega
  · rw [count_market_fixed_step_ne _ _ _ _ h]
    exact he

/-- A full-ratchet body whose target is already met leaves the lottery list
unchanged (both loops run zero iterations). -/
theorem ratchet_fix (lot : List Enode) (e : Enode) (t : Int)
    (h : ratchetCount (lot.count e) t = (lot.count e : Int)) :
    ratchet lot e t = lot := by
  rw [ratchetCount] at h
  have h1 : (t - (lot.count e : Int)).toNat = 0 := by
    split_ifs at h <;> omega
  have h2 : (max (lot.count e : Int) t - max t 1).toNat = 0 := by
    split_ifs at h <;> omega
  simp only [ratchet, h1, h2]
  rfl

/-- A full per-participant pass over counts that are all at their closed-form
fixpoint is the identity on the lottery list. -/
theorem foldRatchet_fix {α : Type} (key : α → Enode) (tgt : α → Int)
    (items : List α) (lot : List Enode)
    (h : ∀ p ∈ items, ratchetCount (lot.count (key p)) (tgt p) = (lot.count (key p) : Int)) :
    items.foldl (fun l q => ratchet l (key q) (tgt q)) lot = lot := by
  induction items with
  | nil => rfl
  | cons q t ih =>
    rw [List.foldl_cons, ratchet_fix _ _ _ (h q (List.mem_cons_self q t))]
    exact ih (fun p hp => h p (List.mem_cons_of_mem q hp))

/-- The closed-form ratchet count is idempotent in its first argument. -/
theorem ratchetCount_idem (c t : Int) :
    ratchetCount (ratchetCount c t) t = ratchetCount c t := by
  simp only [ratchetCount]
  split_ifs <;> omega

/-- The idempotence engine: a second identical full-ratchet pass (same
participants, same targets) is the identity, because after the first pass
every participant's count is at its closed-form fixpoint. -/
theorem foldRatchet_twice {α : Type} (key : α → Enode) (tgt : α → Int)
    (items : List α) (lot : List Enode) (hnd : (items.map key).Nodup) :
    items.foldl (fun l q => ratchet l (key q) (tgt q))
        (items.foldl (fun l q => ratchet l (key q) (tgt q)) lot)
      = items.foldl (fun l q => ratchet l (key q) (tgt q)) lot := by
  apply foldRatchet_fix
  intro p hp
  have h1 := count_foldStep_mem ratchet ratchetCount count_ratchet_self count_ratchet_ne
    key tgt items lot p hnd hp
  rw [h1, ratchetCount_idem]

/-- C3 counterexample: with 20 recorded greetings and no owned tickets
(`exC3`), one `hello_fixed` call appends two tickets for robot 1 — the claim
that `hello_fixed` appends at most one ticket per call is false. -/
theorem hello_fixed_full_climb_counterexample :
    ¬ ((Greeter.hello_fixed exC3).lottery.count (gen_enode 1)
        ≤ exC3.lottery.count (gen_enode 1) + 1) := by decide

/-- C3 (amended): `market_fixed` appends at most one ticket per participant
per call even when the owned count is below target by more than one, and its
removal direction ratchets fully down to `max target 1`; `hello_fixed`,
however, climbs fully to its target in a single call. -/
theorem fixed_ratchet_asymmetry (s : Greeter.Contract)
    (hb : keysNodup s.balances) (hh : keysNodup s.all_hellos) :
    (∀ e : Enode, (Greeter.market_fixed s).lottery.count e ≤ s.lottery.count e + 1)
    ∧ (∀ i bal, (i, bal) ∈ s.balances →
        Int.fdiv bal 10 < (s.lottery.count (gen_enode i) : Int) →
        1 ≤ s.lottery.count (gen_enode i) →
        ((Greeter.market_fixed s).lottery.count (gen_enode i) : Int) = max (Int.fdiv bal 10) 1)
    ∧ (∀ i hs, (i, hs) ∈ s.all_hellos →
        ((s.lottery.count (gen_enode i)) : Int) < ((hs.length / 10 : Nat) : Int) →
        ((Greeter.hello_fixed s).lottery.count (gen_enode i) : Int)
          = ((hs.length / 10 : Nat) : Int)) := by
  refine ⟨?_, ?_, ?_⟩
  · intro e
    by_cases hmem : e ∈ s.balances.map (fun p : Nat × Int => gen_enode p.1)
    · rcases List.mem_map.mp hmem with ⟨p, hp, he⟩
      subst he
      have h1 := count_foldStep_mem market_fixed_step mfCount
        count_market_fixed_step_self count_market_fixed_step_ne
        (fun p : Nat × Int => gen_enode p.1) (fun p => Int.fdiv p.2 10)
        s.balances s.lottery p (enodeKeysNodup _ hb) hp
      have h2 : ((Greeter.market_fixed s).lottery.count (gen_enode p.1) : Int)
          = mfCount (s.lottery.count (gen_enode p.1)) (Int.fdiv p.2 10) := h1
      rw [mfCount] at h2
      split_ifs at h2 <;> omega
    · have h1 := count_foldStep_not_mem market_fixed_step count_market_fixed_step_ne
        (fun p : Nat × Int => gen_enode p.1) (fun p => Int.fdiv p.2 10)
        s.balances s.lottery e hmem
      have h2 : (Greeter.market_fixed s).lottery.count e = s.lottery.count e := h1
      omega
  · intro i bal hmem hgt hone
    have h1 := count_foldStep_mem market_fixed_step mfCount
      count_market_fixed_step_self count_market_fixed_step_ne
      (fun p : Nat × Int => gen_enode p.1) (fun p => Int.fdiv p.2 10)
      s.balances s.lottery (i, bal) (enodeKeysNodup _ hb) hmem
    have h2 : ((Greeter.market_fixed s).lottery.count (gen_enode i) : Int)
        = mfCount (s.lottery.count (gen_enode i)) (Int.fdiv bal 10) := h1
    rw [mfCount] at h2
    split_ifs at h2 <;> omega
  · intro i hs hmem hlt
    have h1 := count_foldStep_mem ratchet ratchetCount count_ratchet_self count_ratchet_ne
      (fun p : Nat × List (Nat × Int) => gen_enode p.1)
      (fun p => ((p.2.length / 10 : Nat) : Int))
      s.all_hellos s.lottery (i, hs) (enodeKeysNodup _ hh) hmem
    have h2 : ((Greeter.hello_fixed s).lottery.count (gen_enode i) : Int)
        = ratchetCount (s.lottery.count (gen_enode i)) ((hs.length / 10 : Nat) : Int) := h1
    rw [ratchetCount] at h2
    split_ifs at h2 <;> omega

theorem fixed_ratchet_asymmetry_witness :
    keysNodup exC3w.balances
    ∧ (Greeter.market_fixed exC3w).lottery.count (gen_enode 1)
        ≤ exC3w.lottery.count (gen_enode 1) + 1
    ∧ ((Greeter.market_fixed exC3w).lottery.count (gen_enode 2) : Int)
        = max (Int.fdiv 10 10) 1
    ∧ ((Greeter.hello_fixed exC3w).lottery.count (gen_enode 3) : Int)
        = (((List.replicate 20 ((1 : Nat), (0 : Int))).length / 10 : Nat) : Int) :=
  ⟨by decide,
   (fixed_ratchet_asymmetry exC3w (by decide) (by decide)).1 (gen_enode 1),
   (fixed_ratchet_asymmetry exC3w (by decide) (by decide)).2.1 2 10 (by decide)
     (by decide) (by decide),
   (fixed_ratchet_asymmetry exC3w (by decide) (by decide)).2.2 3
     (List.replicate 20 ((1 : Nat), (0 : Int))) (by decide) (by decide)⟩

/-- C4 counterexample: on `exC4` (balance 50, target 5, no owned tickets) a
first `market_fixed` call leaves one ticket and an immediate second call adds
another — ticket counts are not unchanged, so the idempotence claim is false
for `market_fixed`. -/
theorem market_fixed_not_idempotent_counterexample :
    ¬ ((Greeter.market_fixed (Greeter.market_fixed exC4)).lottery.count (gen_enode 1)
        = (Greeter.market_fixed exC4).lottery.count (gen_enode 1)) := by decide

/-- C4 (amended): with no new ledger entries, unchanged balances and the same
block timestamp, a second consecutive update is the identity for every
full-ratchet strategy — `hello_fixed`, `hello_fixed_last`, `market_share` and
`hello_shares` — but not for `market_fixed`, which appends one further ticket
per call while a participant is more than one below target. -/
theorem full_ratchet_idempotent (s : Greeter.Contract) (b : Block)
    (hb : keysNodup s.balances) (hh : keysNodup s.all_hellos) :
    Greeter.hello_fixed (Greeter.hello_fixed s) = Greeter.hello_fixed s
    ∧ Greeter.hello_fixed_last (Greeter.hello_fixed_last s b) b = Greeter.hello_fixed_last s b
    ∧ (∀ s₁, Greeter.market_share s = some s₁ → Greeter.market_share s₁ = some s₁)
    ∧ (∀ s₁, Greeter.hello_shares s = some s₁ → Greeter.hello_shares s₁ = some s₁) := by
  refine ⟨?_, ?_, ?_, ?_⟩
  · have h2 := foldRatchet_twice (fun p : Nat × List (Nat × Int) => gen_enode p.1)
      (fun p => ((p.2.length / 10 : Nat) : Int)) s.all_hellos s.lottery (enodeKeysNodup _ hh)
    exact congrArg (fun L => { s with lottery := L }) h2
  · have h2 := foldRatchet_twice (fun p : Nat × List (Nat × Int) => gen_enode p.1)
      (fun p => (((p.2.filter (fun e => b.timestamp - 200 < e.2)).length / 2 : Nat) : Int))
      s.all_hellos s.lottery (enodeKeysNodup _ hh)
    exact congrArg (fun L => { s with lottery := L }) h2
  · intro s₁ h1
    simp only [Greeter.market_share] at h1
    by_cases hp : s.balances.length = 0
    · rw [if_pos hp] at h1
      exact Option.noConfusion h1
    · rw [if_neg hp] at h1
      by_cases hlt : (((s.balances.map Prod.snd).sum : Int) : ℚ) / (s.balances.length : ℚ)
          < (s.trans_reward : ℚ)
      · rw [if_pos hlt] at h1
        obtain rfl := Option.some.inj h1
        simp only [Greeter.market_share]
        rw [if_neg hp, if_pos hlt]
      · rw [if_neg hlt] at h1
        by_cases hz : (((s.balances.map Prod.snd).sum : Int) : ℚ) / (s.balances.length : ℚ) = 0
        · rw [if_pos hz] at h1
          exact Option.noConfusion h1
        · rw [if_neg hz] at h1
          obtain rfl := Option.some.inj h1
          simp only [Greeter.market_share]
          rw [if_neg hp, if_neg hlt, if_neg hz]
          have h2 := foldRatchet_twice (fun p : Nat × Int => gen_enode p.1)
            (fun p => Int.floor ((p.2 : ℚ)
              / ((((s.balances.map Prod.snd).sum : Int) : ℚ) / (s.balances.length : ℚ))))
            s.balances s.lottery (enodeKeysNodup _ hb)
          exact congrArg (fun L => some { s with lottery := L }) h2
  · intro s₁ h1
    simp only [Greeter.hello_shares] at h1
    by_cases hp : s.all_hellos.length = 0
    · rw [if_pos hp] at h1
      exact Option.noConfusion h1
    · rw [if_neg hp] at h1
      by_cases hlt : (((s.all_hellos.map (fun p => (p.2.length : Int))).sum : Int) : ℚ)
          / (s.all_hellos.length : ℚ) < 1
      · rw [if_pos hlt] at h1
        obtain rfl := Option.some.inj h1
        simp only [Greeter.hello_shares]
        rw [if_neg hp, if_pos hlt]
      · rw [if_neg hlt] at h1
        obtain rfl := Option.some.inj h1
        simp only [Greeter.hello_shares]
        rw [if_neg hp, if_neg hlt]
        have h2 := foldRatchet_twice (fun p : Nat × List (Nat × Int) => gen_enode p.1)
          (fun p => Int.floor ((p.2.length : ℚ)
            / ((((s.all_hellos.map (fun p => (p.2.length : Int))).sum : Int) : ℚ)
              / (s.all_hellos.length : ℚ))))
          s.all_hellos s.lottery (enodeKeysNodup _ hh)
        exact congrArg (fun L => some { s with lottery := L }) h2

theorem full_ratchet_idempotent_witness :
    keysNodup exC4w.balances ∧ keysNodup exC4w.all_hellos
    ∧ Greeter.hello_fixed (Greeter.hello_fixed exC4w) = Greeter.hello_fixed exC4w
    ∧ Greeter.hello_fixed_last (Greeter.hello_fixed_last exC4w exBlock0) exBlock0
        = Greeter.hello_fixed_last exC4w exBlock0 :=
  ⟨by decide, by decide,
   (full_ratchet_idempotent exC4w exBlock0 (by decide) (by decide)).1,
   (full_ratchet_idempotent exC4w exBlock0 (by decide) (by decide)).2.1⟩

/-- C5: the floor invariant — an enode owning at least one ticket before an
update (`market_fixed`, `hello_fixed`, `hello_fixed_last`, or a successful
`market_share` / `hello_shares`) still owns at least one ticket after it. -/
theorem lottery_floor_invariant (s : Greeter.Contract) (b : Block) (e : Enode)
    (he : 1 ≤ s.lottery.count e) :
    1 ≤ (Greeter.market_fixed s).lottery.count e
    ∧ 1 ≤ (Greeter.hello_fixed s).lottery.count e
    ∧ 1 ≤ (Greeter.hello_fixed_last s b).lottery.count e
    ∧ (∀ s₁, Greeter.market_share s = some s₁ → 1 ≤ s₁.lottery.count e)
    ∧ (∀ s₁, Greeter.hello_shares s = some s₁ → 1 ≤ s₁.lottery.count e) := by
  refine ⟨?_, ?_, ?_, ?_, ?_⟩
  · exact count_foldStep_pos market_fixed_step
      (fun lot a a' t h => market_fixed_step_count_pos lot a a' t h)
      (fun p : Nat × Int => gen_enode p.1) (fun p => Int.fdiv p.2 10)
      s.balances s.lottery e he
  · exact count_foldStep_pos ratchet (fun lot a a' t h => ratchet_count_pos lot a a' t h)
      (fun p : Nat × List (Nat × Int) => gen_enode p.1)
      (fun p => ((p.2.length / 10 : Nat) : Int))
      s.all_hellos s.lottery e he
  · exact count_foldStep_pos ratchet (fun lot a a' t h => ratchet_count_pos lot a a' t h)
      (fun p : Nat × List (Nat × Int) => gen_enode p.1)
      (fun p => (((p.2.filter (fun q => b.timestamp - 200 < q.2)).length / 2 : Nat) : Int))
      s.all_hellos s.lottery e he
  · intro s₁ h1
    simp only [Greeter.market_share] at h1
    split_ifs at h1
    all_goals first
      | exact Option.noConfusion h1
      | (obtain rfl := Option.some.inj h1
         first
          | exact he
          | exact count_foldStep_pos ratchet
              (fun lot a a' t h => ratchet_count_pos lot a a' t h)
              (fun p : Nat × Int => gen_enode p.1)
              (fun p => Int.floor ((p.2 : ℚ)
                / ((((s.balances.map Prod.snd).sum : Int) : ℚ) / (s.balances.length : ℚ))))
              s.balances s.lottery e he)
  · intro s₁ h1
    simp only [Greeter.hello_shares] at h1
    split_ifs at h1
    all_goals first
      | exact Option.noConfusion h1
      | (obtain rfl := Option.some.inj h1
         first
          | exact he
          | exact count_foldStep_pos ratchet
              (fun lot a a' t h => ratchet_count_pos lot a a' t h)
              (fun p : Nat × List (Nat × Int) => gen_enode p.1)
              (fun p => Int.floor ((p.2.length : ℚ)
                / ((((s.all_hellos.map (fun p => (p.2.length : Int))).sum : Int) : ℚ)
                  / (s.all_hellos.length : ℚ))))
              s.all_hellos s.lottery e he)

theorem lottery_floor_invariant_witness :
    1 ≤ exC5.lottery.count (gen_enode 2)
    ∧ 1 ≤ (Greeter.market_fixed exC5).lottery.count (gen_enode 2)
    ∧ 1 ≤ (Greeter.hello_fixed_last exC5 exBlock0).lottery.count (gen_enode 2) :=
  ⟨by decide,
   (lottery_floor_invariant exC5 exBlock0 (gen_enode 2) (by decide)).1,
   (lottery_floor_invariant exC5 exBlock0 (gen_enode 2) (by decide)).2.2.1⟩

/-- C6: evaluation of the block-reward entry points.  With a supported poc
strategy, `get_block_reward` runs the update and returns
`len(block.data) * trans_reward` (0 for an empty block); but with the
whitelisted greeter strategy `market_share` the dispatch `func(block)` passes
a block to a method with no block parameter (`TypeError`), and poc's own
documented placeholder strategy `none` fails the same way — the spec's
"always succeeds" is contradicted by the code at these inputs. -/
theorem get_block_reward_dispatch_eval :
    Poc.get_block_reward exC6hi exBlock2 = some (Poc.hello_index exC6hi exBlock2, 14)
    ∧ Poc.get_block_reward exC6hi exBlock0 = some (Poc.hello_index exC6hi exBlock0, 0)
    ∧ Greeter.get_block_reward exC6g exBlock2 = none
    ∧ Poc.get_block_reward exC6p exBlock2 = none :=
  ⟨by decide, by decide, by decide, by decide⟩

/-- C7 counterexample: the configured strategy string `none` does not name a
supported strategy, yet `update_connectivity` on `exC7` is not a state-
preserving no-op — the dynamic dispatch calls `self.none(block)` and raises
`TypeError` (modelled as `none`). -/
theorem poc_none_strategy_raises_counterexample :
    Poc.update_connectivity exC7 exBlock0 = none
    ∧ Poc.update_connectivity exC7 exBlock0 ≠ some exC7 :=
  ⟨by decide, by decide⟩

/-- C7 (amended): a configured strategy string that names no attribute of the
contract makes `update_connectivity` (poc) and `update_lottery` (greeter/pos)
logged no-ops that leave the state unchanged and raise nothing; greeter's
zero-argument fallback additionally runs the placeholder `none` as a true
no-op.  (A string naming any other non-strategy attribute is dispatched and
fails — see the counterexample.) -/
theorem unknown_strategy_noop (s : Poc.Contract) (g : Greeter.Contract) (b : Block) :
    (¬ Poc.attrNames.contains s.connectivity_update →
        Poc.update_connectivity s b = some s)
    ∧ (¬ Greeter.attrNames.contains g.lottery_update →
        Greeter.update_lottery g b = some g)
    ∧ (g.lottery_update = "none" → Greeter.update_lottery g b = some g) := by
  refine ⟨?_, ?_, ?_⟩
  · intro h
    have h1 : ¬ s.connectivity_update = "hello_index" := fun hh => h (by rw [hh]; decide)
    have h2 : ¬ s.connectivity_update = "peer_index" := fun hh => h (by rw [hh]; decide)
    rw [Poc.update_connectivity, if_neg h1, if_neg h2, if_neg h]
  · intro h
    rw [Greeter.update_lottery, if_pos h]
  · intro h
    rw [Greeter.update_lottery, h]
    rw [if_neg (by decide), if_neg (by decide), if_neg (by decide), if_pos rfl]

theorem unknown_strategy_noop_witness :
    Poc.update_connectivity exC7p exBlock0 = some exC7p
    ∧ Greeter.update_lottery exC7g exBlock0 = some exC7g
    ∧ Greeter.update_lottery exC7n exBlock0 = some exC7n :=
  ⟨(unknown_strategy_noop exC7p exC7g exBlock0).1 (by decide),
   (unknown_strategy_noop exC7p exC7g exBlock0).2.1 (by decide),
   (unknown_strategy_noop exC7p exC7n exBlock0).2.2 (by decide)⟩

/-- C8: a neighbor's enode is eligible exactly when its advertised total
difficulty exceeds the local one or its advertised mempool hash differs; one
peering pass adds exactly `eligible \ peers` and removes exactly
`peers \ eligible`; and a second pass from the resulting peer table with an
unchanged eligible set computes empty add and remove sets. -/
theorem peering_eligibility_and_convergence (neighbors : List Neighbor) (nv : NodeView) :
    (∀ e : Enode, e ∈ eligible neighbors nv ↔
        ∃ nb ∈ neighbors, gen_enode nb.id = e ∧ (nv.tdiff < nb.tdiff ∨ nb.mhash ≠ nv.mhash))
    ∧ (peering neighbors nv).toAdd = eligible neighbors nv \ nv.peers
    ∧ (peering neighbors nv).toRemove = nv.peers \ eligible neighbors nv
    ∧ (∀ nv₂ : NodeView, nv₂.peers = (peering neighbors nv).newPeers →
        eligible neighbors nv₂ = eligible neighbors nv →
        (peering neighbors nv₂).toAdd = ∅ ∧ (peering neighbors nv₂).toRemove = ∅) := by
  refine ⟨?_, rfl, rfl, ?_⟩
  · intro e
    simp only [eligible, List.mem_toFinset, List.mem_map, List.mem_filter]
    constructor
    · rintro ⟨nb, ⟨hnb, hcond⟩, he⟩
      refine ⟨nb, hnb, he, ?_⟩
      simpa using hcond
    · rintro ⟨nb, hnb, he, hcond⟩
      exact ⟨nb, ⟨hnb, by simpa using hcond⟩, he⟩
  · intro nv₂ hpeers helig
    have hnew : (peering neighbors nv).newPeers = eligible neighbors nv := by
      simp only [peering]
      ext x
      simp only [Finset.mem_sdiff, Finset.mem_union, not_and, not_not]
      tauto
    constructor
    · show eligible neighbors nv₂ \ nv₂.peers = ∅
      rw [helig, hpeers, hnew, Finset.sdiff_self]
    · show nv₂.peers \ eligible neighbors nv₂ = ∅
      rw [helig, hpeers, hnew, Finset.sdiff_self]

theorem peering_eligibility_and_convergence_witness :
    (gen_enode 2 ∈ eligible exC8nbs exC8nv ↔
        ∃ nb ∈ exC8nbs, gen_enode nb.id = gen_enode 2
          ∧ (exC8nv.tdiff < nb.tdiff ∨ nb.mhash ≠ exC8nv.mhash))
    ∧ (peering exC8nbs exC8nv2).toAdd = ∅
    ∧ (peering exC8nbs exC8nv2).toRemove = ∅ :=
  ⟨(peering_eligibility_and_convergence exC8nbs exC8nv).1 (gen_enode 2),
   ((peering_eligibility_and_convergence exC8nbs exC8nv).2.2.2 exC8nv2 rfl (by decide)).1,
   ((peering_eligibility_and_convergence exC8nbs exC8nv).2.2.2 exC8nv2 rfl (by decide)).2⟩

/-- C9: from RANDOM with exactly one radio neighbor `N`, one control step
moves the machine to TRANSACT carrying `N` as `pass_along`; and in TRANSACT,
while the outstanding greeting has no confirmed receipt, a further step
submits no transaction and leaves the controller state unchanged (the
at-most-one-outstanding-hello invariant). -/
theorem fsm_transact_at_most_one_hello (m : FsmContext) (me : Nat) (neighbors : List Nat)
    (pick : List Nat → Nat) (receipt : Tx → Bool) (now : Int) (N : Nat)
    (hpick : ∀ l : List Nat, l ≠ [] → pick l ∈ l) :
    (m.currState = MState.RANDOM → neighbors = [N] →
        (fsmControlStep m me neighbors pick receipt now).1.currState = MState.TRANSACT
        ∧ (fsmControlStep m me neighbors pick receipt now).1.passAlong = some N)
    ∧ (∀ tx, m.currState = MState.TRANSACT → m.txHi = some tx → receipt tx = false →
        (fsmControlStep m me neighbors pick receipt now).2 = []
        ∧ (fsmControlStep m me neighbors pick receipt now).1 = m) := by
  constructor
  · intro hr hn
    subst hn
    have hpk : pick [N] = N := by
      have h := hpick [N] (by simp)
      simpa using h
    constructor <;> simp [fsmControlStep, hr, hpk]
  · intro tx ht htx hrc
    obtain ⟨cs, pa, th⟩ := m
    dsimp only at ht htx
    subst ht
    subst htx
    constructor <;> simp [fsmControlStep, hrc]

theorem fsm_transact_at_most_one_hello_witness :
    ((fsmControlStep exC9r 1 [5] pickHead (fun _ => false) 3).1.currState = MState.TRANSACT
      ∧ (fsmControlStep exC9r 1 [5] pickHead (fun _ => false) 3).1.passAlong = some 5)
    ∧ ((fsmControlStep exC9t 1 [] pickHead (fun _ => false) 9).2 = []
      ∧ (fsmControlStep exC9t 1 [] pickHead (fun _ => false) 9).1 = exC9t) :=
  ⟨(fsm_transact_at_most_one_hello exC9r 1 [5] pickHead (fun _ => false) 3 5
      (fun l hl => by
        cases l with
        | nil => exact absurd rfl hl
        | cons a t => simp [pickHead])).1 rfl rfl,
   (fsm_transact_at_most_one_hello exC9t 1 [] pickHead (fun _ => false) 9 0
      (fun l hl => by
        cases l with
        | nil => exact absurd rfl hl
        | cons a t => simp [pickHead])).2 exC9tx rfl rfl rfl⟩

/-- C10: the share-based strategies are not total on the empty state —
`market_share` fails by zero division whenever `balances` is empty,
`hello_shares` whenever `all_hellos` is empty, and a block-reward computation
on a genesis-fresh pos state configured with `market_share` fails. -/
theorem share_strategies_divide_by_zero (s : Greeter.Contract) :
    (s.balances = [] → Greeter.market_share s = none)
    ∧ (s.all_hellos = [] → Greeter.hello_shares s = none)
    ∧ Greeter.get_block_reward exC10 exBlock0 = none := by
  refine ⟨?_, ?_, by decide⟩
  · intro h
    simp [Greeter.market_share, h]
  · intro h
    simp [Greeter.hello_shares, h]

theorem share_strategies_divide_by_zero_witness :
    Greeter.market_share exC10 = none ∧ Greeter.hello_shares exC10 = none :=
  ⟨(share_strategies_divide_by_zero exC10).1 rfl,
   (share_strategies_divide_by_zero exC10).2.1 rfl⟩
